import Mathlib

/-!
Shallow embedding of the nanoQC parallel fastq ingestion path
(`NanoQC.parse_file`, `NanoQC.parse_fastq_to_dict`, and the merge loop of
`NanoQC.parse_fastq_parallel` in `nanoQC.py`).

Lines of the input file are modelled as lists of byte values (Python
`bytes`).  File paths and the derived `name`/`flag` strings are modelled as
Lean `String`s.  The external timestamp decoder (`dateutil.parser.parse`)
is a parameter `parseTS`; a failing parse is a `timestampError`.  Python
exceptions are modelled by `Except PyErr`.
-/

/-- A byte string (Python `bytes`): a list of byte values. -/
abbrev Bstr := List Nat

/-- ASCII codes of the characters in a Lean string literal, used to write
byte-string constants readably (`bytesOf "GGC" = [71, 71, 67]`). -/
def bytesOf (s : String) : Bstr := s.data.map Char.toNat

/-- The ASCII whitespace bytes recognised by Python's `bytes.split()` and
`bytes.rstrip()`: space, `\t`, `\n`, `\v`, `\f`, `\r`. -/
def isPySpace (b : Nat) : Bool :=
  b == 32 || b == 9 || b == 10 || b == 11 || b == 12 || b == 13

/-- Python `line.rstrip()` on bytes: drop trailing ASCII whitespace
(`nanoQC.py` line 816). -/
def pyRstrip (s : Bstr) : Bstr :=
  (s.reverse.dropWhile (fun b => isPySpace b)).reverse

/-- Helper for `splitWs`: `cur` is the current in-progress token, reversed. -/
def splitWsAux : Bstr → Bstr → List Bstr
  | [], cur => if cur.isEmpty then [] else [cur.reverse]
  | b :: rest, cur =>
    if isPySpace b then
      if cur.isEmpty then splitWsAux rest [] else cur.reverse :: splitWsAux rest []
    else splitWsAux rest (b :: cur)

/-- Python `bytes.split()` with no argument: split on runs of ASCII
whitespace, producing no empty tokens (`header.split()` at
`nanoQC.py` lines 245 and 248). -/
def splitWs (s : Bstr) : List Bstr := splitWsAux s []

/-- Python `str.split(sep)` for a one-character separator, on the character
list of a path string: every occurrence of `sep` cuts, empty pieces are
kept, and the result is never empty (`''.split(c) = ['']`). -/
def pySplitSep (sep : Char) : List Char → List (List Char)
  | [] => [[]]
  | c :: rest =>
    if c = sep then [] :: pySplitSep sep rest
    else
      match pySplitSep sep rest with
      | [] => [[c]]
      | p :: ps => (c :: p) :: ps

/-- `needle` occurs at the front of `hay`. -/
def leadsList : List Char → List Char → Bool
  | [], _ => true
  | _ :: _, [] => false
  | a :: as, b :: bs => a == b && leadsList as bs

/-- `needle` occurs somewhere in `hay`. -/
def hasSub (needle : List Char) : List Char → Bool
  | [] => needle.isEmpty
  | c :: rest => leadsList needle (c :: rest) || hasSub needle rest

/-- Python's substring test `needle in hay` on `str`. -/
def strContains (hay needle : String) : Bool := hasSub needle.data hay.data

/-- Python 3 `round` on the exact value of the expression rounded: round to
the nearest integer, ties to the even neighbour.  `nanoQC.py` line 264
applies it to `(g_count + c_count) / length * 100`; the float expression is
modelled by the exact rational it approximates. -/
def roundHalfEven (q : ℚ) : ℤ :=
  if q - ⌊q⌋ < 1/2 then ⌊q⌋
  else if 1/2 < q - ⌊q⌋ then ⌊q⌋ + 1
  else if ⌊q⌋ % 2 = 0 then ⌊q⌋ else ⌊q⌋ + 1

/-- The record class `MyObjects` of `nanoQC.py` lines 39-47, with the field
types the ingestion path actually stores: `average_phred` is the exact mean
(a rational), `gc` the rounded percentage, `time_string` the value returned
by the external timestamp decoder (type parameter `TS`). -/
structure MyObjects (TS : Type) where
  name : String
  length : Nat
  flag : String
  average_phred : ℚ
  gc : ℤ
  time_string : TS
deriving DecidableEq

/-- The Python exceptions the ingestion path can raise. -/
inductive PyErr where
  /-- `ValueError` from destructuring a list that does not have exactly 4
  elements (`header, seq, extra, qual = l`, line 242). -/
  | unpackMismatch
  /-- `IndexError` from `split()[0]`, `split()[4]` or `split(b'=')[1]`
  (lines 245 and 248). -/
  | indexError
  /-- failure of the external timestamp decoder (`parse`, line 249). -/
  | timestampError
  /-- `ZeroDivisionError` from an empty quality line (line 259) or an
  empty sequence line (line 264). -/
  | zeroDivision
deriving DecidableEq

/-- A Python `dict` keyed by read id, as an insertion-ordered association
list with unique keys maintained by `tinsert`. -/
abbrev Table (TS : Type) := List (Bstr × MyObjects TS)

/-- Python `d[k] = v`: replace the value at an existing key in place, or
append a new binding. -/
def tinsert {TS : Type} : Table TS → Bstr → MyObjects TS → Table TS
  | [], k, v => [(k, v)]
  | (k', v') :: rest, k, v =>
    if k' = k then (k, v) :: rest else (k', v') :: tinsert rest k v

/-- Python `d.get(k)`: the value bound to key `k`, if any. -/
def tfind {TS : Type} : Table TS → Bstr → Option (MyObjects TS)
  | [], _ => none
  | (k', v') :: rest, k => if k' = k then some v' else tfind rest k

/-- Python `d.update(d2)` (`nanoQC.py` line 847): every binding of the
fragment `d2` is written into `d`, overwriting any existing binding. -/
def dict_update {TS : Type} (d d2 : Table TS) : Table TS :=
  d2.foldl (fun acc kv => tinsert acc kv.1 kv.2) d

/-- The gather loop of `NanoQC.parse_fastq_parallel` (lines 845-847):
`for dictionary in results: d.update(dictionary)`. -/
def merge_results {TS : Type} (d : Table TS) (results : List (Table TS)) : Table TS :=
  results.foldl dict_update d

/-- Mean Phred score of a quality line (lines 254-259):
`sum(phred_list) / len(phred_list) - 33` where `phred_list` is the list of
byte values of the quality line.  Only evaluated on non-empty lines (an
empty line raises `ZeroDivisionError` before this value is formed). -/
def meanPhred (qual : Bstr) : ℚ := (qual.sum : ℚ) / (qual.length : ℚ) - 33

/-- GC percentage of a sequence line (lines 261-264):
`int(round((g_count + c_count) / float(length) * 100))` with
`g_count = seq.count(b'G')` and `c_count = seq.count(b'C')`
(ASCII 71 and 67).  Only evaluated on non-empty lines. -/
def gcPercent (seq : Bstr) : ℤ :=
  roundHalfEven (((seq.count 71 + seq.count 67 : ℕ) : ℚ) / (seq.length : ℚ) * 100)

/-- `NanoQC.parse_fastq_to_dict` (lines 241-268).  Decodes one raw 4-line
group `l` into a `MyObjects` record and writes it into `my_dict` under
`seq_id = header.split()[0][1:]`.  `parseTS` models the external
`dateutil.parser.parse`.  Failure points, in Python evaluation order:
destructuring `l` (exactly 4 lines), `split()[0]`, `split()[4]`,
`split(b'=')[1]`, the timestamp decode, the mean over an empty quality
line, and the division by a zero sequence length. -/
def decode4 {TS : Type} (parseTS : Bstr → Option TS) (header seq qual : Bstr)
    (my_dict : Table TS) (name : String) (flag : String) : Except PyErr (Table TS) :=
  match (splitWs header).get? 0 with
  | none => .error .indexError
  | some tok0 =>
    match (splitWs header).get? 4 with
    | none => .error .indexError
    | some tok4 =>
      match (tok4.splitOn 61).get? 1 with
      | none => .error .indexError
      | some tsrc =>
        match parseTS tsrc with
        | none => .error .timestampError
        | some ts =>
          match qual with
          | [] => .error .zeroDivision
          | _ :: _ =>
            match seq with
            | [] => .error .zeroDivision
            | _ :: _ =>
              .ok (tinsert my_dict (tok0.drop 1)
                (MyObjects.mk name seq.length flag (meanPhred qual) (gcPercent seq) ts))

/-- The destructuring step `header, seq, extra, qual = l` of line 242:
exactly 4 lines or a `ValueError`; the 4-line body is `decode4`. -/
def parse_fastq_to_dict {TS : Type} (parseTS : Bstr → Option TS) (l : List Bstr)
    (my_dict : Table TS) (name : String) (flag : String) : Except PyErr (Table TS) :=
  match l with
  | [header, seq, _extra, qual] => decode4 parseTS header seq qual my_dict name flag
  | _ => .error .unpackMismatch

/-- `os.path.basename`: the part of the path after the last `/`. -/
def basenameChars (f : String) : List Char :=
  (pySplitSep '/' f.data).getLastD []

/-- The sample name of `NanoQC.parse_file` line 799:
`os.path.basename(f).split('.')[0].split('_')[0]`. -/
def sample_name_of (f : String) : String :=
  String.mk ((pySplitSep '_' ((pySplitSep '.' (basenameChars f)).headD [])).headD [])

/-- The flag of `NanoQC.parse_file` lines 805-807: `'pass'` by default,
`'fail'` when the path contains the substring `"fail"`. -/
def flag_of (f : String) : String :=
  if strContains f "fail" then "fail" else "pass"

/-- The read loop of `NanoQC.parse_file` lines 812-821.  `acc` is the
Python `lines` buffer.  Each raw line is checked against the `if not line:
break` guard, then `rstrip`ped; when 4 lines are already buffered they are
decoded first and the buffer restarts with the current line.  After the
loop the buffer is decoded unconditionally (line 821). -/
def parse_file_loop {TS : Type} (parseTS : Bstr → Option TS) (name flag : String) :
    List Bstr → List Bstr → Table TS → Except PyErr (Table TS)
  | [], acc, d => parse_fastq_to_dict parseTS acc d name flag
  | raw :: rest, acc, d =>
    if raw = [] then parse_fastq_to_dict parseTS acc d name flag
    else
      if acc.length = 4 then
        match parse_fastq_to_dict parseTS acc d name flag with
        | .error e => .error e
        | .ok d' => parse_file_loop parseTS name flag rest [pyRstrip raw] d'
      else parse_file_loop parseTS name flag rest (acc ++ [pyRstrip raw]) d

/-- `NanoQC.parse_file` (lines 798-823): derive `name` and `flag` from the
path, then run the read loop over the file's raw lines starting from an
empty buffer and an empty dict. -/
def parse_file {TS : Type} (parseTS : Bstr → Option TS) (f : String)
    (rawLines : List Bstr) : Except PyErr (Table TS) :=
  parse_file_loop parseTS (sample_name_of f) (flag_of f) rawLines [] []

/-- Reference restatement of the loop's intended group processing: decode
the 4-line groups of a well-formed file one after another, stopping at the
first error.  `parse_file` is proved to coincide with this on files whose
line count is a positive multiple of 4. -/
def decode_groups {TS : Type} (parseTS : Bstr → Option TS) (name flag : String) :
    List (List Bstr) → Table TS → Except PyErr (Table TS)
  | [], d => .ok d
  | g :: gs, d =>
    match parse_fastq_to_dict parseTS g d name flag with
    | .error e => .error e
    | .ok d' => decode_groups parseTS name flag gs d'

/-- A sample timestamp decoder for concrete witnesses: accepts any
non-empty timestamp text (as `dateutil` accepts the run's ISO 8601
values), rejecting the empty string. -/
def demoTS (s : Bstr) : Option Bstr := if s.isEmpty then none else some s

/-! ### Helper lemmas: rounding -/

lemma roundHalfEven_eq_floor_or_succ (q : ℚ) :
    roundHalfEven q = ⌊q⌋ ∨ roundHalfEven q = ⌊q⌋ + 1 := by
  unfold roundHalfEven
  split_ifs <;> simp

lemma abs_roundHalfEven_sub_le (q : ℚ) : |((roundHalfEven q : ℤ) : ℚ) - q| ≤ 1/2 := by
  have h0 : (⌊q⌋ : ℚ) ≤ q := Int.floor_le q
  have h1 : q < (⌊q⌋ : ℚ) + 1 := Int.lt_floor_add_one q
  unfold roundHalfEven
  split_ifs with h2 h3 h4 <;> rw [abs_le] <;> constructor <;> push_cast <;> linarith

lemma roundHalfEven_nonneg (q : ℚ) (h : 0 ≤ q) : 0 ≤ roundHalfEven q := by
  have hf : 0 ≤ ⌊q⌋ := Int.floor_nonneg.mpr h
  rcases roundHalfEven_eq_floor_or_succ q with h' | h' <;> omega

lemma roundHalfEven_le (q : ℚ) (m : ℤ) (h : q ≤ (m : ℚ)) : roundHalfEven q ≤ m := by
  have h0 : (⌊q⌋ : ℚ) ≤ q := Int.floor_le q
  have hfm : ⌊q⌋ ≤ m := by
    have : (⌊q⌋ : ℚ) ≤ (m : ℚ) := le_trans h0 h
    exact_mod_cast this
  unfold roundHalfEven
  split_ifs with h2 h3 h4
  · exact hfm
  · have : (⌊q⌋ : ℚ) < (m : ℚ) := by linarith
    have : ⌊q⌋ < m := by exact_mod_cast this
    omega
  · exact hfm
  · have hhalf : q - (⌊q⌋ : ℚ) = 1/2 := le_antisymm (not_lt.mp h3) (not_lt.mp h2)
    have : (⌊q⌋ : ℚ) < (m : ℚ) := by linarith
    have : ⌊q⌋ < m := by exact_mod_cast this
    omega

/-! ### Helper lemmas: GC counting and mean quality -/

lemma count_G_add_count_C_le_length (s : Bstr) : s.count 71 + s.count 67 ≤ s.length := by
  induction s with
  | nil => simp
  | cons b t ih =>
    by_cases h1 : b = 71 <;> by_cases h2 : b = 67 <;>
      simp [List.count_cons, h1, h2] <;> omega

lemma sum_map_sub_const (q : List ℕ) :
    (q.map (fun b : ℕ => (b : ℚ) - 33)).sum = (q.sum : ℚ) - 33 * q.length := by
  induction q with
  | nil => simp
  | cons b t ih =>
    rw [List.map_cons, List.sum_cons, ih, List.sum_cons, List.length_cons,
      Nat.cast_add, Nat.cast_add, Nat.cast_one]
    ring

lemma meanPhred_eq_mean_of_sub (q : Bstr) (h : q ≠ []) :
    meanPhred q = ((q.map (fun b : ℕ => (b : ℚ) - 33)).sum) / (q.length : ℚ) := by
  have h1 : q.length ≠ 0 := fun hh => h (List.length_eq_zero.mp hh)
  have hn : (q.length : ℚ) ≠ 0 := by exact_mod_cast h1
  rw [sum_map_sub_const, meanPhred]
  field_simp
  ring

/-! ### Helper lemmas: decoder case analysis -/

lemma decode_ok {TS : Type} (parseTS : Bstr → Option TS) (h s e q : Bstr)
    (d : Table TS) (name flag : String) (tok0 tok4 tsrc : Bstr) (t : TS)
    (h0 : (splitWs h).get? 0 = some tok0) (h4 : (splitWs h).get? 4 = some tok4)
    (h61 : (tok4.splitOn 61).get? 1 = some tsrc) (hts : parseTS tsrc = some t)
    (hq : q ≠ []) (hs : s ≠ []) :
    parse_fastq_to_dict parseTS [h, s, e, q] d name flag =
      .ok (tinsert d (tok0.drop 1)
        (MyObjects.mk name s.length flag (meanPhred q) (gcPercent s) t)) := by
  obtain ⟨qh, qt, rfl⟩ := List.exists_cons_of_ne_nil hq
  obtain ⟨sh, st, rfl⟩ := List.exists_cons_of_ne_nil hs
  show decode4 parseTS h (sh :: st) (qh :: qt) d name flag = _
  simp only [decode4, h0, h4, h61, hts]

lemma decode_err_unpack {TS : Type} (parseTS : Bstr → Option TS) (l : List Bstr)
    (d : Table TS) (name flag : String) (hlen : l.length ≠ 4) :
    parse_fastq_to_dict parseTS l d name flag = .error .unpackMismatch := by
  rcases l with _ | ⟨a, _ | ⟨b, _ | ⟨c, _ | ⟨d4, _ | ⟨e, t⟩⟩⟩⟩⟩ <;> first | rfl | simp at hlen

lemma decode_err_tok0 {TS : Type} (parseTS : Bstr → Option TS) (h s e q : Bstr)
    (d : Table TS) (name flag : String) (h0 : (splitWs h).get? 0 = none) :
    parse_fastq_to_dict parseTS [h, s, e, q] d name flag = .error .indexError := by
  show decode4 parseTS h s q d name flag = _
  simp only [decode4, h0]

lemma decode_err_tok4 {TS : Type} (parseTS : Bstr → Option TS) (h s e q : Bstr)
    (d : Table TS) (name flag : String) (tok0 : Bstr)
    (h0 : (splitWs h).get? 0 = some tok0) (h4 : (splitWs h).get? 4 = none) :
    parse_fastq_to_dict parseTS [h, s, e, q] d name flag = .error .indexError := by
  show decode4 parseTS h s q d name flag = _
  simp only [decode4, h0, h4]

lemma decode_err_eqsign {TS : Type} (parseTS : Bstr → Option TS) (h s e q : Bstr)
    (d : Table TS) (name flag : String) (tok0 tok4 : Bstr)
    (h0 : (splitWs h).get? 0 = some tok0) (h4 : (splitWs h).get? 4 = some tok4)
    (h61 : (tok4.splitOn 61).get? 1 = none) :
    parse_fastq_to_dict parseTS [h, s, e, q] d name flag = .error .indexError := by
  show decode4 parseTS h s q d name flag = _
  simp only [decode4, h0, h4, h61]

lemma decode_err_ts {TS : Type} (parseTS : Bstr → Option TS) (h s e q : Bstr)
    (d : Table TS) (name flag : String) (tok0 tok4 tsrc : Bstr)
    (h0 : (splitWs h).get? 0 = some tok0) (h4 : (splitWs h).get? 4 = some tok4)
    (h61 : (tok4.splitOn 61).get? 1 = some tsrc) (hts : parseTS tsrc = none) :
    parse_fastq_to_dict parseTS [h, s, e, q] d name flag = .error .timestampError := by
  show decode4 parseTS h s q d name flag = _
  simp only [decode4, h0, h4, h61, hts]

lemma decode_err_qual_nil {TS : Type} (parseTS : Bstr → Option TS) (h s e : Bstr)
    (d : Table TS) (name flag : String) (tok0 tok4 tsrc : Bstr) (t : TS)
    (h0 : (splitWs h).get? 0 = some tok0) (h4 : (splitWs h).get? 4 = some tok4)
    (h61 : (tok4.splitOn 61).get? 1 = some tsrc) (hts : parseTS tsrc = some t) :
    parse_fastq_to_dict parseTS [h, s, e, []] d name flag = .error .zeroDivision := by
  show decode4 parseTS h s [] d name flag = _
  simp only [decode4, h0, h4, h61, hts]

lemma decode_err_seq_nil {TS : Type} (parseTS : Bstr → Option TS) (h e q : Bstr)
    (d : Table TS) (name flag : String) (tok0 tok4 tsrc : Bstr) (t : TS)
    (h0 : (splitWs h).get? 0 = some tok0) (h4 : (splitWs h).get? 4 = some tok4)
    (h61 : (tok4.splitOn 61).get? 1 = some tsrc) (hts : parseTS tsrc = some t)
    (hq : q ≠ []) :
    parse_fastq_to_dict parseTS [h, [], e, q] d name flag = .error .zeroDivision := by
  obtain ⟨qh, qt, rfl⟩ := List.exists_cons_of_ne_nil hq
  show decode4 parseTS h [] (qh :: qt) d name flag = _
  simp only [decode4, h0, h4, h61, hts]

/-! ### Concrete evaluation facts used by witnesses -/

lemma bytes_GGC : bytesOf "GGC" = [71, 71, 67] := by decide

lemma bytes_GGCCAT : bytesOf "GGCCAT" = [71, 71, 67, 67, 65, 84] := by decide

lemma gcPercent_GGC : gcPercent (bytesOf "GGC") = 100 := by
  rw [bytes_GGC]
  norm_num [gcPercent, roundHalfEven, List.count_cons, List.count_nil]

lemma gcPercent_GGCCAT : gcPercent (bytesOf "GGCCAT") = 67 := by
  rw [bytes_GGCCAT]
  norm_num [gcPercent, roundHalfEven, List.count_cons, List.count_nil]

lemma meanPhred_demo : meanPhred (bytesOf "?AC") = 32 := by
  have hb : bytesOf "?AC" = [63, 65, 67] := by decide
  rw [hb]
  norm_num [meanPhred, List.sum_cons, List.sum_nil]

lemma meanPhred_II : meanPhred (bytesOf "II") = 40 := by
  have hb : bytesOf "II" = [73, 73] := by decide
  rw [hb]
  norm_num [meanPhred, List.sum_cons, List.sum_nil]

lemma meanPhred_IIII : meanPhred (bytesOf "IIII") = 40 := by
  have hb : bytesOf "IIII" = [73, 73, 73, 73] := by decide
  rw [hb]
  norm_num [meanPhred, List.sum_cons, List.sum_nil]

lemma meanPhred_I6 : meanPhred (bytesOf "IIIIII") = 40 := by
  have hb : bytesOf "IIIIII" = [73, 73, 73, 73, 73, 73] := by decide
  rw [hb]
  norm_num [meanPhred, List.sum_cons, List.sum_nil]

/-! ### C9 -/

/-- C9: for an input file containing zero lines, `parse_file` raises an
error instead of returning an empty fragment table: the trailing-group
decode is invoked unconditionally with an empty buffer, and destructuring
the empty buffer into header/sequence/separator/quality fails
(`ValueError`, modelled as `unpackMismatch`). -/
theorem C9_empty_file_errors {TS : Type} (parseTS : Bstr → Option TS) (f : String) :
    parse_file parseTS f [] = .error .unpackMismatch := rfl

/-! ### C5 -/

/-- C5: `mean_quality` is computed as `(mean of the quality-line bytes) - 33`,
which equals the arithmetic mean of `(byte - 33)` over the quality line; it
is stored unrounded (exactly).  For a quality line whose bytes decode to
Phred scores [30, 32, 34] (bytes `"?AC"` = [63, 65, 67]) the mean is 32,
and the decoder stores 32 in the record. -/
theorem C5_mean_quality :
    (∀ qual : Bstr, qual ≠ [] →
      meanPhred qual = ((qual.map (fun b : ℕ => (b : ℚ) - 33)).sum) / (qual.length : ℚ)) ∧
    meanPhred (bytesOf "?AC") = 32 ∧
    parse_fastq_to_dict demoTS
        [bytesOf "@r1 f1 f2 f3 start_time=2017-05-23T21:11:20Z", bytesOf "GGC",
         bytesOf "+", bytesOf "?AC"] [] "s" "pass" =
      .ok [(bytesOf "r1",
            MyObjects.mk "s" 3 "pass" 32 100 (bytesOf "2017-05-23T21:11:20Z"))] := by
  refine ⟨meanPhred_eq_mean_of_sub, meanPhred_demo, ?_⟩
  rw [decode_ok demoTS (bytesOf "@r1 f1 f2 f3 start_time=2017-05-23T21:11:20Z")
    (bytesOf "GGC") (bytesOf "+") (bytesOf "?AC") [] "s" "pass"
    (bytesOf "@r1") (bytesOf "start_time=2017-05-23T21:11:20Z")
    (bytesOf "2017-05-23T21:11:20Z") (bytesOf "2017-05-23T21:11:20Z")
    (by decide) (by decide) (by decide) (by decide) (by decide) (by decide)]
  have e1 : List.drop 1 (bytesOf "@r1") = bytesOf "r1" := by decide
  have e2 : (bytesOf "GGC").length = 3 := by decide
  rw [e1, e2, gcPercent_GGC, meanPhred_demo]
  rfl

/-- C5 witness: the general conjunct of `C5_mean_quality` evaluated at the
concrete quality line `"?AC"`. -/
theorem C5_mean_quality_witness :
    meanPhred (bytesOf "?AC") =
      (((bytesOf "?AC").map (fun b : ℕ => (b : ℚ) - 33)).sum) / ((bytesOf "?AC").length : ℚ) :=
  C5_mean_quality.1 (bytesOf "?AC") (by decide)

/-! ### C4 -/

/-- C4: for every non-empty sequence line, `gc_percent` is the integer
nearest `100 * (countG + countC) / length` (within 1/2, ties to even) and
lies in [0, 100]; for the sequence line `"GGCCAT"` the decoder produces
`gc_percent = 67`. -/
theorem C4_gc_percent :
    (∀ seq : Bstr, seq ≠ [] →
      0 ≤ gcPercent seq ∧ gcPercent seq ≤ 100 ∧
      |((gcPercent seq : ℤ) : ℚ) -
        ((seq.count 71 + seq.count 67 : ℕ) : ℚ) / (seq.length : ℚ) * 100| ≤ 1/2) ∧
    gcPercent (bytesOf "GGCCAT") = 67 ∧
    parse_fastq_to_dict demoTS
        [bytesOf "@r2 f1 f2 f3 start_time=2017-05-23T21:11:20Z", bytesOf "GGCCAT",
         bytesOf "+", bytesOf "IIIIII"] [] "s" "pass" =
      .ok [(bytesOf "r2",
            MyObjects.mk "s" 6 "pass" 40 67 (bytesOf "2017-05-23T21:11:20Z"))] := by
  refine ⟨?_, gcPercent_GGCCAT, ?_⟩
  · intro seq hs
    have hlen : 0 < seq.length := List.length_pos.mpr hs
    have hn : (0:ℚ) < (seq.length : ℚ) := by exact_mod_cast hlen
    simp only [gcPercent]
    set q : ℚ := ((seq.count 71 + seq.count 67 : ℕ) : ℚ) / (seq.length : ℚ) * 100 with hq
    have hq0 : 0 ≤ q := by positivity
    have hcount : ((seq.count 71 + seq.count 67 : ℕ) : ℚ) ≤ (seq.length : ℚ) := by
      exact_mod_cast count_G_add_count_C_le_length seq
    have hq100 : q ≤ 100 := by
      rw [hq]
      have h1 : ((seq.count 71 + seq.count 67 : ℕ) : ℚ) / (seq.length : ℚ) ≤ 1 :=
        (div_le_one hn).mpr hcount
      nlinarith
    refine ⟨roundHalfEven_nonneg q hq0, ?_, abs_roundHalfEven_sub_le q⟩
    exact roundHalfEven_le q 100 (by exact_mod_cast hq100)
  · rw [decode_ok demoTS (bytesOf "@r2 f1 f2 f3 start_time=2017-05-23T21:11:20Z")
      (bytesOf "GGCCAT") (bytesOf "+") (bytesOf "IIIIII") [] "s" "pass"
      (bytesOf "@r2") (bytesOf "start_time=2017-05-23T21:11:20Z")
      (bytesOf "2017-05-23T21:11:20Z") (bytesOf "2017-05-23T21:11:20Z")
      (by decide) (by decide) (by decide) (by decide) (by decide) (by decide)]
    have e1 : List.drop 1 (bytesOf "@r2") = bytesOf "r2" := by decide
    have e2 : (bytesOf "GGCCAT").length = 6 := by decide
    rw [e1, e2, gcPercent_GGCCAT, meanPhred_I6]
    rfl

/-- C4 witness: the general conjunct of `C4_gc_percent` evaluated at the
concrete sequence line `"GGCCAT"`. -/
theorem C4_gc_percent_witness :
    0 ≤ gcPercent (bytesOf "GGCCAT") ∧ gcPercent (bytesOf "GGCCAT") ≤ 100 ∧
    |((gcPercent (bytesOf "GGCCAT") : ℤ) : ℚ) -
      (((bytesOf "GGCCAT").count 71 + (bytesOf "GGCCAT").count 67 : ℕ) : ℚ) /
        ((bytesOf "GGCCAT").length : ℚ) * 100| ≤ 1/2 :=
  C4_gc_percent.1 (bytesOf "GGCCAT") (by decide)

/-! ### C2 -/

/-- C2 counterexample: the decoder performs no comparison of sequence and
quality lengths.  For the 4-line group with sequence `"GGC"` (length 3) and
quality `"II"` (length 2) the decoder returns a record instead of raising
any error, refuting the claim that such a group fails with a
QualityLengthMismatchError. -/
theorem C2_counterexample :
    (bytesOf "GGC").length ≠ (bytesOf "II").length ∧
    parse_fastq_to_dict demoTS
        [bytesOf "@r1 f1 f2 f3 start_time=2017-05-23T21:11:20Z", bytesOf "GGC",
         bytesOf "+", bytesOf "II"] [] "s" "pass" =
      .ok [(bytesOf "r1",
            MyObjects.mk "s" 3 "pass" 40 100 (bytesOf "2017-05-23T21:11:20Z"))] := by
  refine ⟨by decide, ?_⟩
  rw [decode_ok demoTS (bytesOf "@r1 f1 f2 f3 start_time=2017-05-23T21:11:20Z")
    (bytesOf "GGC") (bytesOf "+") (bytesOf "II") [] "s" "pass"
    (bytesOf "@r1") (bytesOf "start_time=2017-05-23T21:11:20Z")
    (bytesOf "2017-05-23T21:11:20Z") (bytesOf "2017-05-23T21:11:20Z")
    (by decide) (by decide) (by decide) (by decide) (by decide) (by decide)]
  have e1 : List.drop 1 (bytesOf "@r1") = bytesOf "r1" := by decide
  have e2 : (bytesOf "GGC").length = 3 := by decide
  rw [e1, e2, gcPercent_GGC, meanPhred_II]
  rfl

/-- C2 amended: the decoder never checks that the quality line length
matches the sequence line length.  Whenever the header parses, the
timestamp decodes, and both lines are non-empty, the decoder returns a
record even when the two lengths differ: the mean quality is taken over
the quality line and the GC percentage over the sequence line,
independently. -/
theorem C2_amended {TS : Type} (parseTS : Bstr → Option TS) (h s e q : Bstr)
    (d : Table TS) (name flag : String) (tok0 tok4 tsrc : Bstr) (t : TS)
    (h0 : (splitWs h).get? 0 = some tok0) (h4 : (splitWs h).get? 4 = some tok4)
    (h61 : (tok4.splitOn 61).get? 1 = some tsrc) (hts : parseTS tsrc = some t)
    (hq : q ≠ []) (hs : s ≠ []) (_hmismatch : s.length ≠ q.length) :
    parse_fastq_to_dict parseTS [h, s, e, q] d name flag =
      .ok (tinsert d (tok0.drop 1)
        (MyObjects.mk name s.length flag (meanPhred q) (gcPercent s) t)) :=
  decode_ok parseTS h s e q d name flag tok0 tok4 tsrc t h0 h4 h61 hts hq hs

/-- C2 witness: `C2_amended` applied to a concrete group whose sequence
has length 3 and whose quality has length 4. -/
theorem C2_amended_witness :
    parse_fastq_to_dict demoTS
        [bytesOf "@r1 f1 f2 f3 start_time=2017-05-23T21:11:20Z", bytesOf "GGC",
         bytesOf "+", bytesOf "IIII"] [] "s" "pass" =
      .ok (tinsert [] ((bytesOf "@r1").drop 1)
        (MyObjects.mk "s" (bytesOf "GGC").length "pass" (meanPhred (bytesOf "IIII"))
          (gcPercent (bytesOf "GGC")) (bytesOf "2017-05-23T21:11:20Z"))) :=
  C2_amended demoTS (bytesOf "@r1 f1 f2 f3 start_time=2017-05-23T21:11:20Z")
    (bytesOf "GGC") (bytesOf "+") (bytesOf "IIII") [] "s" "pass"
    (bytesOf "@r1") (bytesOf "start_time=2017-05-23T21:11:20Z")
    (bytesOf "2017-05-23T21:11:20Z") (bytesOf "2017-05-23T21:11:20Z")
    (by decide) (by decide) (by decide) (by decide) (by decide) (by decide) (by decide)

/-! ### C7 -/

/-- C7: a 4-line group whose sequence line or whose quality line is empty
is never decoded into a record: the decoder fails (in the source with the
`ZeroDivisionError` of lines 259/264 when the header part succeeds, or
with the earlier header error when it does not).  On success the record
type is fully populated by construction, so no partial record can be
returned. -/
theorem C7_empty_record_error {TS : Type} (parseTS : Bstr → Option TS) (h s e q : Bstr)
    (d : Table TS) (name flag : String) (hemp : s = [] ∨ q = []) :
    ∃ er, parse_fastq_to_dict parseTS [h, s, e, q] d name flag = .error er := by
  cases h0 : (splitWs h).get? 0 with
  | none => exact ⟨_, decode_err_tok0 parseTS h s e q d name flag h0⟩
  | some tok0 =>
    cases h4 : (splitWs h).get? 4 with
    | none => exact ⟨_, decode_err_tok4 parseTS h s e q d name flag tok0 h0 h4⟩
    | some tok4 =>
      cases h61 : (tok4.splitOn 61).get? 1 with
      | none => exact ⟨_, decode_err_eqsign parseTS h s e q d name flag tok0 tok4 h0 h4 h61⟩
      | some tsrc =>
        cases hts : parseTS tsrc with
        | none => exact ⟨_, decode_err_ts parseTS h s e q d name flag tok0 tok4 tsrc h0 h4 h61 hts⟩
        | some t =>
          rcases hemp with hs | hq
          · subst hs
            cases hqn : q with
            | nil =>
              exact ⟨_, decode_err_qual_nil parseTS h [] e d name flag tok0 tok4 tsrc t h0 h4 h61 hts⟩
            | cons qh qt =>
              refine ⟨_, decode_err_seq_nil parseTS h e (qh :: qt) d name flag tok0 tok4 tsrc t
                h0 h4 h61 hts (by simp)⟩
          · subst hq
            exact ⟨_, decode_err_qual_nil parseTS h s e d name flag tok0 tok4 tsrc t h0 h4 h61 hts⟩

/-- C7 witness: a concrete group with a well-formed header but an empty
sequence line fails. -/
theorem C7_empty_record_error_witness :
    ∃ er, parse_fastq_to_dict demoTS
      [bytesOf "@r1 f1 f2 f3 start_time=2017-05-23T21:11:20Z", bytesOf "",
       bytesOf "+", bytesOf "II"] ([] : Table Bstr) "s" "pass" = .error er :=
  C7_empty_record_error demoTS (bytesOf "@r1 f1 f2 f3 start_time=2017-05-23T21:11:20Z")
    (bytesOf "") (bytesOf "+") (bytesOf "II") [] "s" "pass" (Or.inl (by decide))

/-! ### C6 -/

/-- C6: header decoding.  When the header splits on whitespace into at
least 5 tokens, the 5th token contains `=`, and the timestamp text right
of `=` parses, the decoder succeeds with `read_id` equal to the first
token minus its first character and the timestamp taken from the piece
after the first `=` of the 5th token.  A header with fewer than 5 tokens,
a 5th token without `=`, or an unparseable timestamp value is a fatal
decoding error, never a skipped record. -/
theorem C6_header_decoding {TS : Type} (parseTS : Bstr → Option TS) (h s e q : Bstr)
    (d : Table TS) (name flag : String) :
    (∀ tok0 tok4 tsrc t, (splitWs h).get? 0 = some tok0 → (splitWs h).get? 4 = some tok4 →
      (tok4.splitOn 61).get? 1 = some tsrc → parseTS tsrc = some t → q ≠ [] → s ≠ [] →
      parse_fastq_to_dict parseTS [h, s, e, q] d name flag =
        .ok (tinsert d (tok0.drop 1)
          (MyObjects.mk name s.length flag (meanPhred q) (gcPercent s) t))) ∧
    ((splitWs h).length < 5 →
      parse_fastq_to_dict parseTS [h, s, e, q] d name flag = .error .indexError) ∧
    (∀ tok4, (splitWs h).get? 4 = some tok4 → (tok4.splitOn 61).get? 1 = none →
      parse_fastq_to_dict parseTS [h, s, e, q] d name flag = .error .indexError) ∧
    (∀ tok4 tsrc, (splitWs h).get? 4 = some tok4 → (tok4.splitOn 61).get? 1 = some tsrc →
      parseTS tsrc = none →
      parse_fastq_to_dict parseTS [h, s, e, q] d name flag = .error .timestampError) := by
  refine ⟨?_, ?_, ?_, ?_⟩
  · intro tok0 tok4 tsrc t h0 h4 h61 hts hq hs
    exact decode_ok parseTS h s e q d name flag tok0 tok4 tsrc t h0 h4 h61 hts hq hs
  · intro hlt
    have h4 : (splitWs h).get? 4 = none := List.get?_eq_none.mpr (by omega)
    cases h0 : (splitWs h).get? 0 with
    | none => exact decode_err_tok0 parseTS h s e q d name flag h0
    | some tok0 => exact decode_err_tok4 parseTS h s e q d name flag tok0 h0 h4
  · intro tok4 h4 h61
    cases h0 : (splitWs h).get? 0 with
    | none => exact decode_err_tok0 parseTS h s e q d name flag h0
    | some tok0 => exact decode_err_eqsign parseTS h s e q d name flag tok0 tok4 h0 h4 h61
  · intro tok4 tsrc h4 h61 hts
    cases h0 : (splitWs h).get? 0 with
    | none =>
      exfalso
      have hl0 : (splitWs h).length ≤ 0 := List.get?_eq_none.mp h0
      rw [List.get?_eq_none.mpr (by omega)] at h4
      cases h4
    | some tok0 => exact decode_err_ts parseTS h s e q d name flag tok0 tok4 tsrc h0 h4 h61 hts

/-- C6 witness: the success clause of `C6_header_decoding` at a concrete
header, and the failure clauses at a 4-token header, a 5th token without
`=`, and a timestamp the decoder rejects (`demoTS` rejects the empty
text after `"start_time="`). -/
theorem C6_header_decoding_witness :
    parse_fastq_to_dict demoTS
        [bytesOf "@r4 f1 f2 f3 start_time=2017-05-23T21:11:20Z", bytesOf "GGC",
         bytesOf "+", bytesOf "II"] ([] : Table Bstr) "s" "pass" =
      .ok (tinsert [] ((bytesOf "@r4").drop 1)
        (MyObjects.mk "s" (bytesOf "GGC").length "pass" (meanPhred (bytesOf "II"))
          (gcPercent (bytesOf "GGC")) (bytesOf "2017-05-23T21:11:20Z"))) ∧
    parse_fastq_to_dict demoTS
        [bytesOf "@r4 f1 f2 f3", bytesOf "GGC", bytesOf "+", bytesOf "II"]
        ([] : Table Bstr) "s" "pass" = .error .indexError ∧
    parse_fastq_to_dict demoTS
        [bytesOf "@r4 f1 f2 f3 starttime", bytesOf "GGC", bytesOf "+", bytesOf "II"]
        ([] : Table Bstr) "s" "pass" = .error .indexError ∧
    parse_fastq_to_dict demoTS
        [bytesOf "@r4 f1 f2 f3 start_time=", bytesOf "GGC", bytesOf "+", bytesOf "II"]
        ([] : Table Bstr) "s" "pass" = .error .timestampError := by
  refine ⟨?_, ?_, ?_, ?_⟩
  · exact (C6_header_decoding demoTS (bytesOf "@r4 f1 f2 f3 start_time=2017-05-23T21:11:20Z")
      (bytesOf "GGC") (bytesOf "+") (bytesOf "II") [] "s" "pass").1
      (bytesOf "@r4") (bytesOf "start_time=2017-05-23T21:11:20Z")
      (bytesOf "2017-05-23T21:11:20Z") (bytesOf "2017-05-23T21:11:20Z")
      (by decide) (by decide) (by decide) (by decide) (by decide) (by decide)
  · exact (C6_header_decoding demoTS (bytesOf "@r4 f1 f2 f3")
      (bytesOf "GGC") (bytesOf "+") (bytesOf "II") [] "s" "pass").2.1 (by decide)
  · exact (C6_header_decoding demoTS (bytesOf "@r4 f1 f2 f3 starttime")
      (bytesOf "GGC") (bytesOf "+") (bytesOf "II") [] "s" "pass").2.2.1
      (bytesOf "starttime") (by decide) (by decide)
  · exact (C6_header_decoding demoTS (bytesOf "@r4 f1 f2 f3 start_time=")
      (bytesOf "GGC") (bytesOf "+") (bytesOf "II") [] "s" "pass").2.2.2
      (bytesOf "start_time=") (bytesOf "") (by decide) (by decide) (by decide)

/-! ### Helper lemmas: dict update (merge) -/

lemma tfind_tinsert_self {TS : Type} (d : Table TS) (k : Bstr) (v : MyObjects TS) :
    tfind (tinsert d k v) k = some v := by
  induction d with
  | nil => simp [tinsert, tfind]
  | cons kv rest ih =>
    obtain ⟨k', v'⟩ := kv
    by_cases hk : k' = k
    · simp [tinsert, hk, tfind]
    · simp [tinsert, hk, tfind, ih]

lemma tfind_tinsert_ne {TS : Type} (d : Table TS) (k' k : Bstr) (v : MyObjects TS)
    (hk : k' ≠ k) : tfind (tinsert d k' v) k = tfind d k := by
  induction d with
  | nil => simp [tinsert, tfind, hk]
  | cons kv rest ih =>
    obtain ⟨a, b⟩ := kv
    by_cases ha : a = k'
    · subst ha
      simp [tinsert, tfind, hk]
    · simp [tinsert, ha, tfind, ih]

lemma tfind_dict_update_none {TS : Type} (d2 : Table TS) (d : Table TS) (k : Bstr)
    (h : tfind d2 k = none) : tfind (dict_update d d2) k = tfind d k := by
  induction d2 generalizing d with
  | nil => rfl
  | cons kv rest ih =>
    obtain ⟨k2, v2⟩ := kv
    by_cases hk : k2 = k
    · simp [tfind, hk] at h
    · simp only [tfind, hk, if_false] at h
      show tfind (dict_update (tinsert d k2 v2) rest) k = _
      rw [ih (tinsert d k2 v2) h, tfind_tinsert_ne d k2 k v2 hk]

lemma tfind_eq_none_of_not_mem_keys {TS : Type} (d : Table TS) (k : Bstr)
    (h : k ∉ d.map Prod.fst) : tfind d k = none := by
  induction d with
  | nil => rfl
  | cons kv rest ih =>
    obtain ⟨a, b⟩ := kv
    simp only [List.map_cons, List.mem_cons] at h
    push_neg at h
    have ha : a ≠ k := fun hh => h.1 hh.symm
    simp [tfind, ha, ih h.2]

lemma tfind_dict_update_some {TS : Type} (d2 : Table TS) (d : Table TS) (k : Bstr)
    (v : MyObjects TS) (hnd : (d2.map Prod.fst).Nodup) (h : tfind d2 k = some v) :
    tfind (dict_update d d2) k = some v := by
  induction d2 generalizing d with
  | nil => simp [tfind] at h
  | cons kv rest ih =>
    obtain ⟨k2, v2⟩ := kv
    rw [List.map_cons, List.nodup_cons] at hnd
    by_cases hk : k2 = k
    · subst hk
      simp only [tfind, if_true] at h
      have hrest : tfind rest k2 = none :=
        tfind_eq_none_of_not_mem_keys rest k2 hnd.1
      show tfind (dict_update (tinsert d k2 v2) rest) k2 = some v
      rw [tfind_dict_update_none rest (tinsert d k2 v2) k2 hrest,
        tfind_tinsert_self]
      exact h
    · simp only [tfind, hk, if_false] at h
      exact ih (tinsert d k2 v2) hnd.2 h

/-! ### C1 -/

/-- C1 counterexample: the gather-phase merge is Python `dict.update`.
Merging a fragment whose key set intersects the master's does not raise
any error: the fragment's record silently replaces the master's record
for the shared read id, refuting the claim that such a merge raises a
DuplicateReadIdError and never overwrites. -/
theorem C1_counterexample :
    merge_results
        [(bytesOf "r1", (MyObjects.mk "s1" 5 "pass" 10 50 (bytesOf "t1") : MyObjects Bstr))]
        [[(bytesOf "r1", MyObjects.mk "s2" 6 "fail" 11 60 (bytesOf "t2"))]] =
      [(bytesOf "r1", MyObjects.mk "s2" 6 "fail" 11 60 (bytesOf "t2"))] ∧
    (MyObjects.mk "s1" 5 "pass" 10 50 (bytesOf "t1") : MyObjects Bstr) ≠
      MyObjects.mk "s2" 6 "fail" 11 60 (bytesOf "t2") := by
  constructor
  · rfl
  · intro hcontra
    have := congrArg MyObjects.length hcontra
    simp at this

/-- C1 amended: the merge of `parse_fastq_parallel` is Python
`dict.update`, a silent last-writer-wins union: for every key bound in the
fragment, the merged table holds the fragment's record (overwriting any
record the master held for that key); keys not bound in the fragment keep
the master's binding.  No duplicate-read-id check exists and no error is
ever raised. -/
theorem C1_amended {TS : Type} (d d2 : Table TS) (k : Bstr)
    (hnd : (d2.map Prod.fst).Nodup) :
    (∀ v, tfind d2 k = some v → tfind (dict_update d d2) k = some v) ∧
    (tfind d2 k = none → tfind (dict_update d d2) k = tfind d k) := by
  constructor
  · intro v h
    exact tfind_dict_update_some d2 d k v hnd h
  · intro h
    exact tfind_dict_update_none d2 d k h

/-- C1 witness: `C1_amended` applied to the one-key master and fragment of
the counterexample: the shared key ends up bound to the fragment's
record. -/
theorem C1_amended_witness :
    tfind (dict_update
        [(bytesOf "r1", (MyObjects.mk "s1" 5 "pass" 10 50 (bytesOf "t1") : MyObjects Bstr))]
        [(bytesOf "r1", MyObjects.mk "s2" 6 "fail" 11 60 (bytesOf "t2"))])
      (bytesOf "r1") =
      some (MyObjects.mk "s2" 6 "fail" 11 60 (bytesOf "t2")) :=
  (C1_amended
    [(bytesOf "r1", (MyObjects.mk "s1" 5 "pass" 10 50 (bytesOf "t1") : MyObjects Bstr))]
    [(bytesOf "r1", MyObjects.mk "s2" 6 "fail" 11 60 (bytesOf "t2"))]
    (bytesOf "r1") (by simp)).1
    (MyObjects.mk "s2" 6 "fail" 11 60 (bytesOf "t2")) (by simp [tfind])

/-! ### Helper lemmas: record provenance through the loop -/

lemma mem_tinsert {TS : Type} (d : Table TS) (k k' : Bstr) (v r : MyObjects TS)
    (hmem : (k', r) ∈ tinsert d k v) : (k', r) ∈ d ∨ (k', r) = (k, v) := by
  induction d with
  | nil =>
    right
    simpa [tinsert] using hmem
  | cons kv rest ih =>
    obtain ⟨a, b⟩ := kv
    by_cases ha : a = k
    · rw [show tinsert ((a, b) :: rest) k v = (k, v) :: rest by simp [tinsert, ha]] at hmem
      rcases List.mem_cons.mp hmem with hh | hh
      · right; exact hh
      · left; exact List.mem_cons_of_mem _ hh
    · rw [show tinsert ((a, b) :: rest) k v = (a, b) :: tinsert rest k v by
        simp [tinsert, ha]] at hmem
      rcases List.mem_cons.mp hmem with hh | hh
      · left; exact hh ▸ List.mem_cons_self _ _
      · rcases ih hh with hh' | hh'
        · left; exact List.mem_cons_of_mem _ hh'
        · right; exact hh'

lemma decode4_ok_shape {TS : Type} (parseTS : Bstr → Option TS) (h s q : Bstr)
    (d : Table TS) (name flag : String) (d' : Table TS)
    (hok : decode4 parseTS h s q d name flag = .ok d') :
    ∃ (tok0 : Bstr) (t : TS), d' = tinsert d (tok0.drop 1)
      (MyObjects.mk name s.length flag (meanPhred q) (gcPercent s) t) := by
  unfold decode4 at hok
  repeat' split at hok
  all_goals first
    | exact Except.noConfusion hok
    | (injection hok with hok
       exact ⟨_, _, hok.symm⟩)

lemma decode_fields {TS : Type} (parseTS : Bstr → Option TS) (l : List Bstr)
    (d : Table TS) (name flag : String) (d' : Table TS)
    (hok : parse_fastq_to_dict parseTS l d name flag = .ok d')
    (k : Bstr) (r : MyObjects TS) (hmem : (k, r) ∈ d') :
    (k, r) ∈ d ∨ (r.name = name ∧ r.flag = flag) := by
  rcases l with _ | ⟨h, _ | ⟨s, _ | ⟨e, _ | ⟨q, _ | ⟨x, t⟩⟩⟩⟩⟩
  · exact Except.noConfusion hok
  · exact Except.noConfusion hok
  · exact Except.noConfusion hok
  · exact Except.noConfusion hok
  · obtain ⟨tok0, t0, rfl⟩ := decode4_ok_shape parseTS h s q d name flag d' hok
    rcases mem_tinsert d (tok0.drop 1) k
      (MyObjects.mk name s.length flag (meanPhred q) (gcPercent s) t0) r hmem with hh | hh
    · left; exact hh
    · right
      have hr : r = MyObjects.mk name s.length flag (meanPhred q) (gcPercent s) t0 :=
        (Prod.mk.injEq _ _ _ _ ▸ hh).2
      rw [hr]
      exact ⟨rfl, rfl⟩
  · exact Except.noConfusion hok

lemma loop_fields {TS : Type} (parseTS : Bstr → Option TS) (name flag : String) :
    ∀ (raw : List Bstr) (acc : List Bstr) (d d' : Table TS),
      parse_file_loop parseTS name flag raw acc d = .ok d' →
      ∀ k r, (k, r) ∈ d' → (k, r) ∈ d ∨ (r.name = name ∧ r.flag = flag) := by
  intro raw
  induction raw with
  | nil =>
    intro acc d d' hok k r hmem
    exact decode_fields parseTS acc d name flag d' hok k r hmem
  | cons raw1 rest ih =>
    intro acc d d' hok k r hmem
    unfold parse_file_loop at hok
    by_cases hr : raw1 = []
    · rw [if_pos hr] at hok
      exact decode_fields parseTS acc d name flag d' hok k r hmem
    · rw [if_neg hr] at hok
      by_cases hlen : acc.length = 4
      · rw [if_pos hlen] at hok
        cases hdec : parse_fastq_to_dict parseTS acc d name flag with
        | error e => rw [hdec] at hok; exact Except.noConfusion hok
        | ok d2 =>
          rw [hdec] at hok
          rcases ih [pyRstrip raw1] d2 d' hok k r hmem with hmem2 | hfields
          · exact decode_fields parseTS acc d name flag d2 hdec k r hmem2
          · right; exact hfields
      · rw [if_neg hlen] at hok
        exact ih (acc ++ [pyRstrip raw1]) d d' hok k r hmem

/-! ### Helper lemmas: path splitting -/

lemma pySplitSep_ne_nil (c : Char) (s : List Char) : pySplitSep c s ≠ [] := by
  cases s with
  | nil => simp [pySplitSep]
  | cons a rest =>
    by_cases hac : a = c
    · simp [pySplitSep, hac]
    · simp only [pySplitSep, hac, if_false]
      cases hsp : pySplitSep c rest <;> simp

lemma pySplitSep_head (c : Char) (s : List Char) :
    (pySplitSep c s).headD [] = s.takeWhile (fun x => x ≠ c) := by
  induction s with
  | nil => rfl
  | cons a rest ih =>
    by_cases hac : a = c
    · simp [pySplitSep, hac]
    · cases hsp : pySplitSep c rest with
      | nil => exact absurd hsp (pySplitSep_ne_nil c rest)
      | cons p ps =>
        have hp : p = rest.takeWhile (fun x => x ≠ c) := by
          rw [hsp] at ih
          simpa using ih
        simp [pySplitSep, hac, hsp, hp]

/-! ### C8 -/

/-- C8: the flag of every record produced from a file is `'fail'` exactly
when the file's path contains the substring `"fail"` (case-sensitive) and
`'pass'` otherwise — including paths containing neither `"pass"` nor
`"fail"`, for which the default `'pass'` is used without any error. -/
theorem C8_flag_from_path {TS : Type} :
    (∀ (parseTS : Bstr → Option TS) (f : String) (raw : List Bstr) (d' : Table TS)
       (k : Bstr) (r : MyObjects TS),
      parse_file parseTS f raw = .ok d' → (k, r) ∈ d' → r.flag = flag_of f) ∧
    (∀ f : String, (flag_of f = "fail" ↔ strContains f "fail" = true) ∧
      (flag_of f = "fail" ∨ flag_of f = "pass")) ∧
    flag_of "/runs/fail/barcode01_x.fastq" = "fail" ∧
    flag_of "/runs/pass/barcode01_x.fastq" = "pass" ∧
    flag_of "/runs/other/barcode01_x.fastq" = "pass" := by
  refine ⟨?_, ?_, by decide, by decide, by decide⟩
  · intro parseTS f raw d' k r hok hmem
    rcases loop_fields parseTS (sample_name_of f) (flag_of f) raw [] [] d' hok k r hmem
      with hmem0 | hf
    · exact absurd hmem0 (List.not_mem_nil _)
    · exact hf.2
  · intro f
    unfold flag_of
    by_cases hc : strContains f "fail" = true
    · rw [if_pos hc]
      exact ⟨⟨fun _ => hc, fun _ => rfl⟩, Or.inl rfl⟩
    · rw [if_neg hc]
      refine ⟨⟨fun hfp => absurd hfp (by decide), fun hcc => absurd hcc hc⟩, Or.inr rfl⟩

/-- C8 witness: parsing a concrete one-record file whose path contains
`"fail"` yields a record whose flag is `flag_of` of that path. -/
theorem C8_flag_from_path_witness :
    (MyObjects.mk "sample" (bytesOf "GGC").length "fail" (meanPhred (bytesOf "II"))
      (gcPercent (bytesOf "GGC")) (bytesOf "2017-05-23T21:11:20Z")).flag =
      flag_of "/runs/fail/sample_1.fastq" := by
  have hok : parse_file demoTS "/runs/fail/sample_1.fastq"
      [bytesOf "@r8 f1 f2 f3 start_time=2017-05-23T21:11:20Z", bytesOf "GGC",
       bytesOf "+", bytesOf "II"] =
      .ok [(List.drop 1 (bytesOf "@r8"),
        MyObjects.mk "sample" (bytesOf "GGC").length "fail" (meanPhred (bytesOf "II"))
          (gcPercent (bytesOf "GGC")) (bytesOf "2017-05-23T21:11:20Z"))] := by
    have h1 : parse_file demoTS "/runs/fail/sample_1.fastq"
        [bytesOf "@r8 f1 f2 f3 start_time=2017-05-23T21:11:20Z", bytesOf "GGC",
         bytesOf "+", bytesOf "II"] =
        parse_fastq_to_dict demoTS
          [bytesOf "@r8 f1 f2 f3 start_time=2017-05-23T21:11:20Z", bytesOf "GGC",
           bytesOf "+", bytesOf "II"] [] "sample" "fail" := by rfl
    rw [h1, decode_ok demoTS (bytesOf "@r8 f1 f2 f3 start_time=2017-05-23T21:11:20Z")
      (bytesOf "GGC") (bytesOf "+") (bytesOf "II") [] "sample" "fail"
      (bytesOf "@r8") (bytesOf "start_time=2017-05-23T21:11:20Z")
      (bytesOf "2017-05-23T21:11:20Z") (bytesOf "2017-05-23T21:11:20Z")
      (by decide) (by decide) (by decide) (by decide) (by decide) (by decide)]
    rfl
  exact C8_flag_from_path.1 demoTS "/runs/fail/sample_1.fastq"
    [bytesOf "@r8 f1 f2 f3 start_time=2017-05-23T21:11:20Z", bytesOf "GGC",
     bytesOf "+", bytesOf "II"] _ (List.drop 1 (bytesOf "@r8")) _ hok
    (List.mem_singleton_self _)

/-! ### C10 -/

/-- C10: the sample name is the file's base name truncated at the first
`.` and then at the first `_` (so `"sample.v1_a.fastq"` gives `"sample"`,
cutting at the dot before the underscore is reached), and every record
produced from one file carries that name. -/
theorem C10_sample_name {TS : Type} :
    (∀ f : String, sample_name_of f =
      String.mk (((basenameChars f).takeWhile (fun x => x ≠ '.')).takeWhile
        (fun x => x ≠ '_'))) ∧
    sample_name_of "/data/run1/sample.v1_a.fastq" = "sample" ∧
    (∀ (parseTS : Bstr → Option TS) (f : String) (raw : List Bstr) (d' : Table TS)
       (k : Bstr) (r : MyObjects TS),
      parse_file parseTS f raw = .ok d' → (k, r) ∈ d' → r.name = sample_name_of f) := by
  refine ⟨?_, by decide, ?_⟩
  · intro f
    unfold sample_name_of
    rw [pySplitSep_head, pySplitSep_head]
  · intro parseTS f raw d' k r hok hmem
    rcases loop_fields parseTS (sample_name_of f) (flag_of f) raw [] [] d' hok k r hmem
      with hmem0 | hf
    · exact absurd hmem0 (List.not_mem_nil _)
    · exact hf.1

/-- C10 witness: parsing a concrete one-record file named
`sample.v1_a.fastq` yields a record whose name is `sample_name_of` of the
path (= `"sample"`). -/
theorem C10_sample_name_witness :
    (MyObjects.mk "sample" (bytesOf "GGC").length "pass" (meanPhred (bytesOf "II"))
      (gcPercent (bytesOf "GGC")) (bytesOf "2017-05-23T21:11:20Z")).name =
      sample_name_of "/data/run1/sample.v1_a.fastq" := by
  have hok : parse_file demoTS "/data/run1/sample.v1_a.fastq"
      [bytesOf "@r9 f1 f2 f3 start_time=2017-05-23T21:11:20Z", bytesOf "GGC",
       bytesOf "+", bytesOf "II"] =
      .ok [(List.drop 1 (bytesOf "@r9"),
        MyObjects.mk "sample" (bytesOf "GGC").length "pass" (meanPhred (bytesOf "II"))
          (gcPercent (bytesOf "GGC")) (bytesOf "2017-05-23T21:11:20Z"))] := by
    have h1 : parse_file demoTS "/data/run1/sample.v1_a.fastq"
        [bytesOf "@r9 f1 f2 f3 start_time=2017-05-23T21:11:20Z", bytesOf "GGC",
         bytesOf "+", bytesOf "II"] =
        parse_fastq_to_dict demoTS
          [bytesOf "@r9 f1 f2 f3 start_time=2017-05-23T21:11:20Z", bytesOf "GGC",
           bytesOf "+", bytesOf "II"] [] "sample" "pass" := by rfl
    rw [h1, decode_ok demoTS (bytesOf "@r9 f1 f2 f3 start_time=2017-05-23T21:11:20Z")
      (bytesOf "GGC") (bytesOf "+") (bytesOf "II") [] "sample" "pass"
      (bytesOf "@r9") (bytesOf "start_time=2017-05-23T21:11:20Z")
      (bytesOf "2017-05-23T21:11:20Z") (bytesOf "2017-05-23T21:11:20Z")
      (by decide) (by decide) (by decide) (by decide) (by decide) (by decide)]
    rfl
  exact C10_sample_name.2.2 demoTS "/data/run1/sample.v1_a.fastq"
    [bytesOf "@r9 f1 f2 f3 start_time=2017-05-23T21:11:20Z", bytesOf "GGC",
     bytesOf "+", bytesOf "II"] _ (List.drop 1 (bytesOf "@r9")) _ hok
    (List.mem_singleton_self _)
/-! ### Helper lemmas: four-line cadence of the read loop -/

lemma loop_cons_append {TS : Type} (parseTS : Bstr → Option TS) (name flag : String)
    (raw1 : Bstr) (rest acc : List Bstr) (d : Table TS)
    (hx : raw1 ≠ []) (hacc : acc.length ≠ 4) :
    parse_file_loop parseTS name flag (raw1 :: rest) acc d =
      parse_file_loop parseTS name flag rest (acc ++ [pyRstrip raw1]) d := by
  conv_lhs => rw [parse_file_loop]
  rw [if_neg hx, if_neg hacc]

lemma loop_cons_flush_ok {TS : Type} (parseTS : Bstr → Option TS) (name flag : String)
    (raw1 : Bstr) (rest acc : List Bstr) (d d2 : Table TS)
    (hx : raw1 ≠ []) (hacc : acc.length = 4)
    (hdec : parse_fastq_to_dict parseTS acc d name flag = .ok d2) :
    parse_file_loop parseTS name flag (raw1 :: rest) acc d =
      parse_file_loop parseTS name flag rest [pyRstrip raw1] d2 := by
  conv_lhs => rw [parse_file_loop]
  rw [if_neg hx, if_pos hacc, hdec]

lemma loop_cons_flush_error {TS : Type} (parseTS : Bstr → Option TS) (name flag : String)
    (raw1 : Bstr) (rest acc : List Bstr) (d : Table TS) (e : PyErr)
    (hx : raw1 ≠ []) (hacc : acc.length = 4)
    (hdec : parse_fastq_to_dict parseTS acc d name flag = .error e) :
    parse_file_loop parseTS name flag (raw1 :: rest) acc d = .error e := by
  conv_lhs => rw [parse_file_loop]
  rw [if_neg hx, if_pos hacc, hdec]

lemma loop_fill {TS : Type} (parseTS : Bstr → Option TS) (name flag : String) :
    ∀ (g rest : List Bstr) (acc : List Bstr) (d : Table TS),
      acc.length + g.length = 4 → (∀ l ∈ g, l ≠ []) →
      parse_file_loop parseTS name flag (g ++ rest) acc d =
        parse_file_loop parseTS name flag rest (acc ++ g.map pyRstrip) d := by
  intro g
  induction g with
  | nil =>
    intro rest acc d hlen hne
    simp
  | cons x g' ih =>
    intro rest acc d hlen hne
    have hx : x ≠ [] := hne x (List.mem_cons_self _ _)
    have hacc : acc.length ≠ 4 := by
      simp only [List.length_cons] at hlen
      omega
    show parse_file_loop parseTS name flag (x :: (g' ++ rest)) acc d = _
    rw [loop_cons_append parseTS name flag x (g' ++ rest) acc d hx hacc]
    rw [ih rest (acc ++ [pyRstrip x]) d (by simp at hlen ⊢; omega)
      (fun l hl => hne l (List.mem_cons_of_mem _ hl))]
    simp

lemma loop_groups {TS : Type} (parseTS : Bstr → Option TS) (name flag : String) :
    ∀ (gs : List (List Bstr)) (acc : List Bstr) (d : Table TS),
      acc.length = 4 →
      (∀ g ∈ gs, g.length = 4 ∧ ∀ l ∈ g, l ≠ []) →
      parse_file_loop parseTS name flag gs.join acc d =
        decode_groups parseTS name flag (acc :: gs.map (List.map pyRstrip)) d := by
  intro gs
  induction gs with
  | nil =>
    intro acc d hlen hgs
    show parse_fastq_to_dict parseTS acc d name flag = _
    cases hdec : parse_fastq_to_dict parseTS acc d name flag with
    | error e => simp [decode_groups, hdec]
    | ok d2 => simp [decode_groups, hdec]
  | cons g gs' ih =>
    intro acc d hlen hgs
    obtain ⟨hg4, hgne⟩ := hgs g (List.mem_cons_self _ _)
    obtain ⟨x, g3, rfl⟩ : ∃ x g3, g = x :: g3 := by
      cases g with
      | nil => simp at hg4
      | cons x g3 => exact ⟨x, g3, rfl⟩
    have hx : x ≠ [] := hgne x (List.mem_cons_self _ _)
    show parse_file_loop parseTS name flag (x :: (g3 ++ gs'.join)) acc d = _
    cases hdec : parse_fastq_to_dict parseTS acc d name flag with
    | error e =>
      rw [loop_cons_flush_error parseTS name flag x (g3 ++ gs'.join) acc d e hx hlen hdec]
      simp [decode_groups, hdec]
    | ok d2 =>
      rw [loop_cons_flush_ok parseTS name flag x (g3 ++ gs'.join) acc d d2 hx hlen hdec]
      rw [loop_fill parseTS name flag g3 gs'.join [pyRstrip x] d2
        (by simp at hg4 ⊢; omega)
        (fun l hl => hgne l (List.mem_cons_of_mem _ hl))]
      rw [ih ([pyRstrip x] ++ g3.map pyRstrip) d2 (by simp at hg4 ⊢; omega)
        (fun g hg => hgs g (List.mem_cons_of_mem _ hg))]
      simp [decode_groups, hdec]

lemma loop_mod_error {TS : Type} (parseTS : Bstr → Option TS) (name flag : String) :
    ∀ (raw : List Bstr) (acc : List Bstr) (d : Table TS),
      (∀ l ∈ raw, l ≠ []) → acc.length ≤ 4 → (acc.length + raw.length) % 4 ≠ 0 →
      ∃ e, parse_file_loop parseTS name flag raw acc d = .error e := by
  intro raw
  induction raw with
  | nil =>
    intro acc d _ hle hmod
    refine ⟨.unpackMismatch, ?_⟩
    show parse_fastq_to_dict parseTS acc d name flag = _
    exact decode_err_unpack parseTS acc d name flag (by simp at hmod; omega)
  | cons x rest ih =>
    intro acc d hne hle hmod
    have hx : x ≠ [] := hne x (List.mem_cons_self _ _)
    by_cases hacc : acc.length = 4
    · cases hdec : parse_fastq_to_dict parseTS acc d name flag with
      | error e =>
        exact ⟨e, loop_cons_flush_error parseTS name flag x rest acc d e hx hacc hdec⟩
      | ok d2 =>
        obtain ⟨e, he⟩ := ih [pyRstrip x] d2
          (fun l hl => hne l (List.mem_cons_of_mem _ hl)) (by simp)
          (by simp only [List.length_cons, List.length_singleton, List.length_nil] at hmod ⊢; omega)
        exact ⟨e, by
          rw [loop_cons_flush_ok parseTS name flag x rest acc d d2 hx hacc hdec]
          exact he⟩
    · obtain ⟨e, he⟩ := ih (acc ++ [pyRstrip x]) d
        (fun l hl => hne l (List.mem_cons_of_mem _ hl)) (by simp; omega)
        (by simp only [List.length_cons, List.length_append, List.length_singleton, List.length_nil] at hmod ⊢
            omega)
      exact ⟨e, by
        rw [loop_cons_append parseTS name flag x rest acc d hx hacc]
        exact he⟩

/-! ### C3 -/

/-- C3: the reader processes a file strictly in 4-line groups.  For a file
whose raw lines are all non-empty (as lines read from a file are): if the
line count is not a multiple of 4, `parse_file` fails (the trailing 1-3
un-paired lines cannot be destructured into a 4-line group); if the line
count is a positive multiple of 4, `parse_file` decodes exactly the
consecutive 4-line groups in order — in particular the final group of 4
accumulated lines is still flushed by the unconditional decode after the
loop. -/
theorem C3_four_line_groups {TS : Type} (parseTS : Bstr → Option TS) (f : String)
    (raw : List Bstr) (hne : ∀ l ∈ raw, l ≠ []) :
    (raw.length % 4 ≠ 0 → ∃ e, parse_file parseTS f raw = .error e) ∧
    (∀ gs : List (List Bstr), raw = gs.join → (∀ g ∈ gs, g.length = 4) → gs ≠ [] →
      parse_file parseTS f raw =
        decode_groups parseTS (sample_name_of f) (flag_of f)
          (gs.map (List.map pyRstrip)) []) := by
  constructor
  · intro hmod
    exact loop_mod_error parseTS (sample_name_of f) (flag_of f) raw [] [] hne
      (by simp) (by simpa using hmod)
  · intro gs hraw hg4 hgs0
    subst hraw
    obtain ⟨g, gs', rfl⟩ : ∃ g gs', gs = g :: gs' := by
      cases gs with
      | nil => exact absurd rfl hgs0
      | cons g gs' => exact ⟨g, gs', rfl⟩
    have hg : g.length = 4 := hg4 g (List.mem_cons_self _ _)
    have hmemg : ∀ l ∈ g, l ≠ [] := fun l hl =>
      hne l (List.mem_join.mpr ⟨g, List.mem_cons_self _ _, hl⟩)
    show parse_file_loop parseTS (sample_name_of f) (flag_of f)
      (g ++ gs'.join) [] [] = _
    rw [loop_fill parseTS (sample_name_of f) (flag_of f) g gs'.join [] []
      (by simpa using hg) hmemg]
    rw [List.nil_append]
    rw [loop_groups parseTS (sample_name_of f) (flag_of f) gs' (g.map pyRstrip) []
      (by simp [hg]) (fun g' hg' => ⟨hg4 g' (List.mem_cons_of_mem _ hg'),
        fun l hl => hne l (List.mem_join.mpr ⟨g', List.mem_cons_of_mem _ hg', hl⟩)⟩)]
    rfl

/-- C3 witness: both halves of `C3_four_line_groups` at concrete inputs —
a 5-line file errors, and a 4-line file is decoded as its single 4-line
group. -/
theorem C3_four_line_groups_witness :
    (∃ e, parse_file demoTS "/runs/pass/s_1.fastq"
      [bytesOf "@r7 f1 f2 f3 start_time=2017-05-23T21:11:20Z", bytesOf "GGC",
       bytesOf "+", bytesOf "II", bytesOf "@extra"] = .error e) ∧
    parse_file demoTS "/runs/pass/s_1.fastq"
        [bytesOf "@r7 f1 f2 f3 start_time=2017-05-23T21:11:20Z", bytesOf "GGC",
         bytesOf "+", bytesOf "II"] =
      decode_groups demoTS (sample_name_of "/runs/pass/s_1.fastq")
        (flag_of "/runs/pass/s_1.fastq")
        ([[bytesOf "@r7 f1 f2 f3 start_time=2017-05-23T21:11:20Z", bytesOf "GGC",
           bytesOf "+", bytesOf "II"]].map (List.map pyRstrip)) [] := by
  constructor
  · exact (C3_four_line_groups demoTS "/runs/pass/s_1.fastq"
      [bytesOf "@r7 f1 f2 f3 start_time=2017-05-23T21:11:20Z", bytesOf "GGC",
       bytesOf "+", bytesOf "II", bytesOf "@extra"] (by decide)).1 (by decide)
  · exact (C3_four_line_groups demoTS "/runs/pass/s_1.fastq"
      [bytesOf "@r7 f1 f2 f3 start_time=2017-05-23T21:11:20Z", bytesOf "GGC",
       bytesOf "+", bytesOf "II"] (by decide)).2
      [[bytesOf "@r7 f1 f2 f3 start_time=2017-05-23T21:11:20Z", bytesOf "GGC",
        bytesOf "+", bytesOf "II"]] rfl (by decide) (by decide)
